import Mathlib

/-!
# PrimAITE simulation core: a verification development

This file gives a shallow embedding of the PrimAITE simulation core (the
Access Control List engine, the node power state machine, software and file
lifecycle operations, link traffic accounting, the request-dispatch protocol
and the state-description query) and proves the behavioural properties the
specification states about them.

The repository snapshot ships the simulation core's configuration files,
its class declarations and its notebook callers, but not the bodies of the
core functions themselves; every definition below is therefore modelled from
the specification's description of the corresponding operation, staying as
close as the spec allows to the declared names and signatures.
-/

/-- Permission carried by an ACL rule and returned by ACL evaluation. -/
inductive RulePermission where
  | permit
  | deny
deriving DecidableEq, Repr

/-- Modelled from the spec: a packet is an immutable value carrying the
5-tuple used by ACL filtering (source and destination IPv4 address, source
and destination port, protocol).  Addresses are 32-bit values encoded as
naturals. -/
structure Packet where
  source_ip : Nat
  dest_ip : Nat
  src_port : Nat
  dst_port : Nat
  protocol : Nat
deriving DecidableEq, Repr

/-- All 32 address bits set: the mask complementing a wildcard mask. -/
def mask32 : Nat := 2 ^ 32 - 1

/-- Modelled from the spec: an address field of a rule matches a packet
address by wildcard-mask containment — every bit at which the wildcard mask
is 0 must agree between the rule address and the packet address. -/
def wildcardMatch (rule_ip wildcard addr : Nat) : Bool :=
  Nat.land (Nat.xor rule_ip addr) (Nat.xor wildcard mask32) == 0

/-- Modelled from the spec: a non-address rule field is either the ALL
sentinel (`none`), matching any packet value, or a concrete value that must
equal the packet's corresponding field. -/
def fieldMatch (ruleField : Option Nat) (pktField : Nat) : Bool :=
  match ruleField with
  | none => true
  | some v => v == pktField

/-- Modelled from the spec: an ACL rule is an entry holding a permission,
source and destination address each with a wildcard mask, and optional
(ALL-able) source port, destination port and protocol fields. -/
structure ACLRule where
  permission : RulePermission
  source_ip : Nat
  source_wildcard : Nat
  dest_ip : Nat
  dest_wildcard : Nat
  src_port : Option Nat
  dst_port : Option Nat
  protocol : Option Nat
deriving DecidableEq, Repr

/-- Modelled from the spec: a rule matches a packet iff every non-wildcard
field equals the packet's corresponding field, address fields being matched
by wildcard-mask containment. -/
def ruleMatches (r : ACLRule) (p : Packet) : Bool :=
  wildcardMatch r.source_ip r.source_wildcard p.source_ip &&
  wildcardMatch r.dest_ip r.dest_wildcard p.dest_ip &&
  fieldMatch r.src_port p.src_port &&
  fieldMatch r.dst_port p.dst_port &&
  fieldMatch r.protocol p.protocol

/-- Modelled from the spec: an ACL engine is an ordered mapping of position
to rule (position is a unique key within one engine), together with the
implicit default rule's permission and a configurable rule cap. -/
structure AccessControlList where
  rules : List (Nat × ACLRule)
  implicit_permission : RulePermission
  max_acl_rules : Nat
deriving DecidableEq, Repr

/-- Ordering of position-keyed rules by ascending position. -/
def posLE (a b : Nat × ACLRule) : Prop := a.1 ≤ b.1

instance : DecidableRel posLE := fun a b => Nat.decLe a.1 b.1

instance : IsTotal (Nat × ACLRule) posLE := ⟨fun a b => Nat.le_total a.1 b.1⟩

instance : IsTrans (Nat × ACLRule) posLE := ⟨fun _ _ _ => Nat.le_trans⟩

/-- Modelled from the spec: `evaluate` iterates the engine's rules in
ascending position order and returns the permission of the first rule that
matches the packet; if no rule matches, it returns the implicit default
rule's permission. -/
def evaluate (acl : AccessControlList) (p : Packet) : RulePermission :=
  (((List.insertionSort posLE acl.rules).find? (fun pr => ruleMatches pr.2 p)).map
    (fun pr => pr.2.permission)).getD acl.implicit_permission

/-- Errors surfaced by the ACL engine's mutating operations. -/
inductive ACLError where
  | CapacityExceeded
  | PositionConflict
  | NotFound
deriving DecidableEq, Repr

/-- Modelled from the spec: `add_rule` fails with `CapacityExceeded` when
the engine is at its rule cap, with `PositionConflict` when the position is
already occupied, and otherwise records the rule at the given position. -/
def add_rule (acl : AccessControlList) (rule : ACLRule) (pos : Nat) :
    Except ACLError AccessControlList :=
  if acl.max_acl_rules ≤ acl.rules.length then .error .CapacityExceeded
  else if (acl.rules.lookup pos).isSome then .error .PositionConflict
  else .ok { acl with rules := (pos, rule) :: acl.rules }

/-- Modelled from the spec: `remove_rule` deletes the rule at the given
position, or reports `NotFound` (as a returned error value, never a thrown
exception) when no rule occupies that position. -/
def remove_rule (acl : AccessControlList) (pos : Nat) :
    Except ACLError AccessControlList :=
  if (acl.rules.lookup pos).isSome then
    .ok { acl with rules := acl.rules.filter (fun pr => pr.1 != pos) }
  else .error .NotFound

example : evaluate ⟨[], .deny, 10⟩ ⟨1, 2, 3, 4, 5⟩ = .deny := by decide

/-- In an engine whose positions form a unique key, two rules stored at the
same position are the same rule. -/
theorem rules_keys_unique {l : List (Nat × ACLRule)}
    (h : (l.map Prod.fst).Nodup) {p : Nat} {a b : ACLRule}
    (ha : (p, a) ∈ l) (hb : (p, b) ∈ l) : a = b := by
  induction l with
  | nil => cases ha
  | cons x t ih =>
      simp only [List.map_cons, List.nodup_cons] at h
      rcases List.mem_cons.mp ha with ha1 | ha1 <;>
        rcases List.mem_cons.mp hb with hb1 | hb1
      · rw [← ha1] at hb1
        exact ((Prod.mk.injEq p b p a).mp hb1).2.symm
      · exfalso
        refine h.1 ?_
        rw [← ha1]
        show Prod.fst (p, b) ∈ List.map Prod.fst t
        exact List.mem_map_of_mem Prod.fst hb1
      · exfalso
        refine h.1 ?_
        rw [← hb1]
        show Prod.fst (p, a) ∈ List.map Prod.fst t
        exact List.mem_map_of_mem Prod.fst ha1
      · exact ih h.2 ha1 hb1

/-- In a list sorted by ascending position, `find?` returns an entry whose
rule agrees with any matching entry that sits at the minimal matching
position and is the unique rule at that position. -/
theorem find_sorted_first {q : Nat × ACLRule → Bool} :
    ∀ {l : List (Nat × ACLRule)}, l.Sorted posLE →
      ∀ {pr : Nat × ACLRule}, pr ∈ l → q pr = true →
        (∀ x ∈ l, q x = true → pr.1 ≤ x.1) →
        (∀ x ∈ l, x.1 = pr.1 → x.2 = pr.2) →
        ∃ x, l.find? q = some x ∧ x.2 = pr.2 := by
  intro l
  induction l with
  | nil =>
      intro _ pr hmem
      cases hmem
  | cons a t ih =>
      intro hs pr hmem hq hmin huniq
      rw [List.sorted_cons] at hs
      by_cases hqa : q a = true
      · refine ⟨a, List.find?_cons_of_pos t hqa, ?_⟩
        rcases List.mem_cons.mp hmem with h1 | h1
        · rw [h1]
        · have h2 : pr.1 ≤ a.1 := hmin a (List.mem_cons_self a t) hqa
          have h3 : a.1 ≤ pr.1 := hs.1 pr h1
          exact huniq a (List.mem_cons_self a t) (Nat.le_antisymm h3 h2)
      · rw [List.find?_cons_of_neg t hqa]
        have hpr : pr ∈ t := by
          rcases List.mem_cons.mp hmem with h1 | h1
          · exact absurd (h1 ▸ hq) hqa
          · exact h1
        exact ih hs.2 hpr hq (fun x hx => hmin x (List.mem_cons_of_mem a hx))
          (fun x hx => huniq x (List.mem_cons_of_mem a hx))

/-- C1: for every ACL engine (with positions forming a unique key, the
engine invariant) and every packet, `evaluate` inspects the rules in
ascending position order — a rule matching only if every non-wildcard field
equals the packet's corresponding field — and returns the permission of the
first matching rule; if no rule matches it returns the implicit default
rule's permission, so `evaluate` always returns a decision, never a
no-match result. -/
theorem C1_evaluate_first_match_else_default (acl : AccessControlList) (pkt : Packet)
    (hpos : (acl.rules.map Prod.fst).Nodup) :
    ((∀ pr ∈ acl.rules, ruleMatches pr.2 pkt = false) →
        evaluate acl pkt = acl.implicit_permission)
    ∧ (∀ pos rule, (pos, rule) ∈ acl.rules → ruleMatches rule pkt = true →
        (∀ pr ∈ acl.rules, ruleMatches pr.2 pkt = true → pos ≤ pr.1) →
        evaluate acl pkt = rule.permission)
    ∧ (evaluate acl pkt = acl.implicit_permission ∨
        ∃ pos rule, (pos, rule) ∈ acl.rules ∧ ruleMatches rule pkt = true ∧
          evaluate acl pkt = rule.permission) := by
  have hmemiff : ∀ x : Nat × ACLRule,
      x ∈ List.insertionSort posLE acl.rules ↔ x ∈ acl.rules := fun x =>
    (List.perm_insertionSort posLE acl.rules).mem_iff
  refine ⟨?_, ?_, ?_⟩
  · intro hnone
    have hfind : (List.insertionSort posLE acl.rules).find?
        (fun pr => ruleMatches pr.2 pkt) = none := by
      rw [List.find?_eq_none]
      intro x hx
      simp only [Bool.not_eq_true]
      exact hnone x ((hmemiff x).mp hx)
    simp [evaluate, hfind]
  · intro pos rule hmem hmatch hmin
    have hsorted := List.sorted_insertionSort posLE acl.rules
    obtain ⟨x, hfind, hx⟩ := find_sorted_first (q := fun pr => ruleMatches pr.2 pkt)
      hsorted ((hmemiff (pos, rule)).mpr hmem) hmatch
      (fun x hx hq => hmin x ((hmemiff x).mp hx) hq)
      (fun x hx hxpos => by
        have hx' : (pos, x.2) ∈ acl.rules := by
          have := (hmemiff x).mp hx
          rwa [show x = (x.1, x.2) from rfl, hxpos] at this
        exact rules_keys_unique hpos hx' hmem)
    simp [evaluate, hfind, hx]
  · cases hfind : (List.insertionSort posLE acl.rules).find?
        (fun pr => ruleMatches pr.2 pkt) with
    | none =>
        left
        simp [evaluate, hfind]
    | some x =>
        right
        refine ⟨x.1, x.2, ?_, ?_, ?_⟩
        · exact (hmemiff x).mp (List.mem_of_find?_eq_some hfind)
        · have h5 := List.find?_some hfind
          exact h5
        · simp [evaluate, hfind]

/-- Concrete engine for the C1 witness: a DENY rule for the packet at
position 1 and a match-everything PERMIT rule at position 2, stored out of
order. -/
def c1Rules : List (Nat × ACLRule) :=
  [(2, ⟨.permit, 0, mask32, 0, mask32, none, none, none⟩),
   (1, ⟨.deny, 10, 0, 20, 0, some 80, some 5432, some 6⟩)]

/-- Concrete engine for the C1 witness. -/
def c1Acl : AccessControlList := ⟨c1Rules, .permit, 10⟩

/-- Concrete packet for the C1 witness. -/
def c1Pkt : Packet := ⟨10, 20, 80, 5432, 6⟩

/-- Witness for C1: on the concrete engine, the first matching rule in
ascending position order is the DENY rule at position 1, and `evaluate`
returns its permission. -/
theorem C1_evaluate_first_match_else_default_witness :
    evaluate c1Acl c1Pkt = RulePermission.deny :=
  (C1_evaluate_first_match_else_default c1Acl c1Pkt (by decide)).2.1 1
    ⟨.deny, 10, 0, 20, 0, some 80, some 5432, some 6⟩
    (by decide) (by decide) (by decide)

/-- When no rule occupies a position, filtering that position away keeps
every stored rule. -/
theorem filter_keeps_all_of_lookup_none {l : List (Nat × ACLRule)} {pos : Nat}
    (h : l.lookup pos = none) : l.filter (fun pr => pr.1 != pos) = l := by
  induction l with
  | nil => rfl
  | cons a t ih =>
      obtain ⟨k, b⟩ := a
      by_cases hk : pos = k
      · exfalso
        subst hk
        simp [List.lookup] at h
      · have hbeq : (pos == k) = false := beq_eq_false_iff_ne.mpr hk
        have hlook : t.lookup pos = none := by
          simpa [List.lookup, hbeq] using h
        have hne : (k != pos) = true := bne_iff_ne.mpr (Ne.symm hk)
        simp [List.filter, hne, ih hlook]

/-- C7: adding a rule at an unoccupied position (in an engine below its
rule cap) and then removing the rule at that same position restores the
engine, hence restores the `evaluate` decision for every packet; and
`remove_rule` on a position holding no rule returns the `NotFound` error
value rather than throwing. -/
theorem C7_add_remove_rule_identity (acl : AccessControlList) (rule : ACLRule) (pos : Nat)
    (hcap : acl.rules.length < acl.max_acl_rules)
    (hfree : acl.rules.lookup pos = none) :
    (∃ acl2 acl3, add_rule acl rule pos = .ok acl2 ∧
        remove_rule acl2 pos = .ok acl3 ∧
        ∀ pkt : Packet, evaluate acl3 pkt = evaluate acl pkt)
    ∧ remove_rule acl pos = .error .NotFound := by
  constructor
  · have hnotcap : ¬ acl.max_acl_rules ≤ acl.rules.length := Nat.not_le.mpr hcap
    refine ⟨{ acl with rules := (pos, rule) :: acl.rules }, acl, ?_, ?_, fun _ => rfl⟩
    · simp [add_rule, hnotcap, hfree]
    · have hfilter :
          ((pos, rule) :: acl.rules).filter (fun pr => pr.1 != pos) = acl.rules := by
        simp [List.filter, filter_keeps_all_of_lookup_none hfree]
      simp [remove_rule, List.lookup, hfilter]
  · simp [remove_rule, hfree]

/-- Concrete engine for the C7 witness. -/
def c7Acl : AccessControlList :=
  ⟨[(1, ⟨.permit, 0, mask32, 0, mask32, none, none, none⟩)], .deny, 5⟩

/-- Concrete rule for the C7 witness. -/
def c7Rule : ACLRule := ⟨.deny, 10, 0, 20, 0, some 80, some 5432, some 6⟩

/-- Witness for C7: the concrete engine is below its cap and position 3 is
unoccupied, so add-then-remove at position 3 restores the engine's
decisions and probing position 3 directly reports `NotFound`. -/
theorem C7_add_remove_rule_identity_witness :
    (∃ acl2 acl3, add_rule c7Acl c7Rule 3 = .ok acl2 ∧
        remove_rule acl2 3 = .ok acl3 ∧
        ∀ pkt : Packet, evaluate acl3 pkt = evaluate c7Acl pkt)
    ∧ remove_rule c7Acl 3 = .error .NotFound :=
  C7_add_remove_rule_identity c7Acl c7Rule 3 (by decide) (by decide)

/-- Operating (power) state of a node. -/
inductive NodeOperatingState where
  | off
  | on
  | booting
  | shutting_down
  | resetting
deriving DecidableEq, Repr

/-- Modelled from the spec: a node's power state machine with its configured
start-up and shut-down durations and the per-transition tick countdowns.
The simulation core's Node class is not shipped in this snapshot; the model
follows the spec's state machine (OFF → BOOTING → ON after exactly the
configured boot-duration ticks, ON → SHUTTING_DOWN → OFF likewise), and —
matching the repository's configurations that set a zero duration on nodes
expected to be usable at once — a zero configured duration completes the
transition in the same tick as the request, skipping the intermediate
state. -/
structure Node where
  operating_state : NodeOperatingState
  start_up_duration : Nat
  shut_down_duration : Nat
  boot_countdown : Nat
  shutdown_countdown : Nat
deriving DecidableEq, Repr

/-- Modelled from the spec: the power-on request handler.  A node that is
OFF starts booting with the configured start-up duration as its countdown
(going directly to ON when that duration is zero); any other state leaves
the node unchanged. -/
def power_on (n : Node) : Node :=
  if n.operating_state = .off then
    if n.start_up_duration = 0 then { n with operating_state := .on }
    else { n with operating_state := .booting, boot_countdown := n.start_up_duration }
  else n

/-- Modelled from the spec: the shutdown request handler, symmetric to
power-on. -/
def shutdown (n : Node) : Node :=
  if n.operating_state = .on then
    if n.shut_down_duration = 0 then { n with operating_state := .off }
    else { n with operating_state := .shutting_down,
                  shutdown_countdown := n.shut_down_duration }
  else n

/-- Modelled from the spec: one timestep tick of the node state machine —
each pending transition countdown is decremented exactly once per tick, and
the transition fires when the countdown runs out. -/
def node_apply_timestep (n : Node) : Node :=
  if n.operating_state = .booting then
    if n.boot_countdown ≤ 1 then { n with operating_state := .on, boot_countdown := 0 }
    else { n with boot_countdown := n.boot_countdown - 1 }
  else if n.operating_state = .shutting_down then
    if n.shutdown_countdown ≤ 1 then
      { n with operating_state := .off, shutdown_countdown := 0 }
    else { n with shutdown_countdown := n.shutdown_countdown - 1 }
  else n

/-- Error raised when software is acted on while its node is unavailable. -/
inductive NodeRequestError where
  | NodeNotAvailable
deriving DecidableEq, Repr

/-- Modelled from the spec: a request to act on a node's software (start,
stop, scan, …) fails with NodeNotAvailable while the node is not ON; the
action itself is dispatched only on an ON node. -/
def node_software_request (n : Node) : Except NodeRequestError Node :=
  if n.operating_state = .on then .ok n else .error .NodeNotAvailable

/-- While strictly fewer ticks than the boot countdown have elapsed, a
booting node is still booting and its countdown has decreased by exactly
the number of elapsed ticks. -/
theorem booting_progress : ∀ (k : Nat) (n : Node), n.operating_state = .booting →
    k < n.boot_countdown →
    (node_apply_timestep^[k] n).operating_state = .booting ∧
    (node_apply_timestep^[k] n).boot_countdown = n.boot_countdown - k := by
  intro k
  induction k with
  | zero =>
      intro n hb _
      exact ⟨hb, by simp⟩
  | succ k ih =>
      intro n hb hk
      rw [Function.iterate_succ_apply]
      have hgt : ¬ n.boot_countdown ≤ 1 := by omega
      have h1 : node_apply_timestep n = { n with boot_countdown := n.boot_countdown - 1 } := by
        simp [node_apply_timestep, hb, hgt]
      rw [h1]
      have h2 := ih { n with boot_countdown := n.boot_countdown - 1 } hb (by simp; omega)
      refine ⟨h2.1, ?_⟩
      rw [h2.2]
      simp
      omega

/-- A booting node with a positive countdown reaches ON after exactly that
many ticks. -/
theorem booting_completes (n : Node) (hb : n.operating_state = .booting)
    (hpos : 0 < n.boot_countdown) :
    (node_apply_timestep^[n.boot_countdown] n).operating_state = .on := by
  have h := booting_progress (n.boot_countdown - 1) n hb (by omega)
  have hsucc : n.boot_countdown = (n.boot_countdown - 1) + 1 := by omega
  rw [hsucc, Function.iterate_succ_apply']
  have hle : (node_apply_timestep^[n.boot_countdown - 1] n).boot_countdown ≤ 1 := by
    rw [h.2]
    omega
  simp [node_apply_timestep, h.1, hle]

/-- C3 (amended): for every node that is OFF with configured boot duration
d ≥ 1, a power-on request moves it to BOOTING, after exactly d timestep
ticks it reaches ON, and at every tick strictly before it reaches ON any
request to act on the node's software fails with NodeNotAvailable.  (A
configured duration of 0 instead powers the node on in the same tick, see
the counterexample and C10.) -/
theorem C3_power_on_boots_for_duration (n : Node) (d : Nat)
    (hoff : n.operating_state = .off) (hd : n.start_up_duration = d)
    (hpos : 0 < d) :
    (power_on n).operating_state = .booting
    ∧ (node_apply_timestep^[d] (power_on n)).operating_state = .on
    ∧ ∀ k, k < d →
        node_software_request (node_apply_timestep^[k] (power_on n)) =
          .error .NodeNotAvailable := by
  have hdz : ¬ n.start_up_duration = 0 := by omega
  have hpo : power_on n =
      { n with operating_state := .booting, boot_countdown := n.start_up_duration } := by
    simp [power_on, hoff, hdz]
  have hb : (power_on n).operating_state = .booting := by rw [hpo]
  have hc : (power_on n).boot_countdown = d := by rw [hpo]; simpa using hd
  refine ⟨hb, ?_, ?_⟩
  · have := booting_completes (power_on n) hb (by rw [hc]; exact hpos)
    rwa [hc] at this
  · intro k hk
    have h := booting_progress k (power_on n) hb (by rw [hc]; exact hk)
    have : (node_apply_timestep^[k] (power_on n)).operating_state ≠ .on := by
      rw [h.1]
      intro hcontra
      cases hcontra
    simp [node_software_request, h.1]

/-- Concrete node for the C3 witness: OFF with boot duration 2. -/
def c3Node : Node := ⟨.off, 2, 3, 0, 0⟩

/-- Witness for C3 (amended): the concrete OFF node with boot duration 2
boots for exactly 2 ticks, rejecting software actions before reaching ON. -/
theorem C3_power_on_boots_for_duration_witness :
    (power_on c3Node).operating_state = .booting
    ∧ (node_apply_timestep^[2] (power_on c3Node)).operating_state = .on
    ∧ ∀ k, k < 2 →
        node_software_request (node_apply_timestep^[k] (power_on c3Node)) =
          .error .NodeNotAvailable :=
  C3_power_on_boots_for_duration c3Node 2 (by decide) (by decide) (by decide)

/-- Concrete node for the C3 counterexample: OFF with boot duration 0, as
configured for several nodes in the repository's scenario files. -/
def c3ZeroNode : Node := ⟨.off, 0, 0, 0, 0⟩

/-- Counterexample to C3 as stated: a node whose configured boot duration
is 0 (a configuration the repository's scenario files use) is moved by
power-on directly to ON and never to BOOTING. -/
theorem C3_zero_duration_counterexample :
    c3ZeroNode.operating_state = .off
    ∧ c3ZeroNode.start_up_duration = 0
    ∧ (power_on c3ZeroNode).operating_state ≠ NodeOperatingState.booting
    ∧ (power_on c3ZeroNode).operating_state = .on := by
  refine ⟨rfl, rfl, ?_, rfl⟩
  intro h
  cases h

/-- C10: a power-on request on an OFF node configured with zero start-up
duration makes the node observably ON in the same tick, never remaining in
BOOTING; symmetrically, a shutdown request on an ON node configured with
zero shut-down duration makes it observably OFF in the same tick. -/
theorem C10_zero_duration_immediate (n m : Node)
    (hoff : n.operating_state = .off) (hn0 : n.start_up_duration = 0)
    (hon : m.operating_state = .on) (hm0 : m.shut_down_duration = 0) :
    (power_on n).operating_state = .on
    ∧ (shutdown m).operating_state = .off := by
  constructor
  · simp [power_on, hoff, hn0]
  · simp [shutdown, hon, hm0]

/-- Concrete nodes for the C10 witness. -/
def c10OffNode : Node := ⟨.off, 0, 0, 0, 0⟩

/-- Concrete ON node for the C10 witness. -/
def c10OnNode : Node := ⟨.on, 0, 0, 0, 0⟩

/-- Witness for C10: zero-duration power-on and shutdown complete in the
same tick on the concrete nodes. -/
theorem C10_zero_duration_immediate_witness :
    (power_on c10OffNode).operating_state = .on
    ∧ (shutdown c10OnNode).operating_state = .off :=
  C10_zero_duration_immediate c10OffNode c10OnNode rfl rfl rfl rfl

/-- Status of a request response. -/
inductive RequestStatus where
  | success
  | failure
  | unreachable
deriving DecidableEq, Repr

/-- Modelled from the spec: the value returned by apply_request — a status
in {SUCCESS, FAILURE, UNREACHABLE} plus an optional data payload. -/
structure RequestResponse where
  status : RequestStatus
  data : Option String
deriving DecidableEq, Repr

/-- Context mapping optionally attached to a request. -/
def RequestContext : Type := List (String × String)

/-- Modelled from the spec: the component hierarchy a request path walks —
an owning component maps name segments to sub-components, and a terminal
action carries its precondition check (a function of the request
context). -/
inductive SimComponent where
  | group (children : List (String × SimComponent))
  | action (precond : RequestContext → Bool)

/-- Modelled from the spec: the Simulation Container resolves the token
path hop-by-hop through owning components down to the target and invokes
the terminal action; a segment that fails to resolve yields UNREACHABLE, a
resolved target whose preconditions are unmet yields FAILURE, and otherwise
the action executes with SUCCESS. -/
def apply_request : SimComponent → List String → RequestContext → RequestResponse
  | .action p, [], ctx => if p ctx then ⟨.success, none⟩ else ⟨.failure, none⟩
  | .action _, _ :: _, _ => ⟨.unreachable, none⟩
  | .group _, [], _ => ⟨.unreachable, none⟩
  | .group cs, t :: rest, ctx =>
      match cs.lookup t with
      | none => ⟨.unreachable, none⟩
      | some c => apply_request c rest ctx

/-- The path resolves: every segment names an existing sub-component and
the path ends at a terminal action. -/
def resolvesPath : SimComponent → List String → Bool
  | .action _, [] => true
  | .action _, _ :: _ => false
  | .group _, [] => false
  | .group cs, t :: rest =>
      match cs.lookup t with
      | none => false
      | some c => resolvesPath c rest

/-- The path resolves and the terminal action's precondition holds in the
given context. -/
def terminalPrecond : SimComponent → List String → RequestContext → Bool
  | .action p, [], ctx => p ctx
  | .action _, _ :: _, _ => false
  | .group _, [], _ => false
  | .group cs, t :: rest, ctx =>
      match cs.lookup t with
      | none => false
      | some c => terminalPrecond c rest ctx

/-- C2: for every request (token path plus context) applied to the
simulation container, the response status is UNREACHABLE exactly when some
segment of the path fails to resolve to an existing component, FAILURE
exactly when the path resolves but the terminal action's preconditions are
unmet, and SUCCESS otherwise. -/
theorem C2_apply_request_status (c : SimComponent) (path : List String)
    (ctx : RequestContext) :
    ((apply_request c path ctx).status = .unreachable ↔ resolvesPath c path = false)
    ∧ ((apply_request c path ctx).status = .failure ↔
        (resolvesPath c path = true ∧ terminalPrecond c path ctx = false))
    ∧ ((apply_request c path ctx).status = .success ↔
        (resolvesPath c path = true ∧ terminalPrecond c path ctx = true)) := by
  induction path generalizing c with
  | nil =>
      cases c with
      | group cs => simp [apply_request, resolvesPath, terminalPrecond]
      | action p =>
          by_cases hp : p ctx = true
          · simp [apply_request, resolvesPath, terminalPrecond, hp]
          · simp only [Bool.not_eq_true] at hp
            simp [apply_request, resolvesPath, terminalPrecond, hp]
  | cons t rest ih =>
      cases c with
      | action p => simp [apply_request, resolvesPath, terminalPrecond]
      | group cs =>
          cases hl : cs.lookup t with
          | none => simp [apply_request, resolvesPath, terminalPrecond, hl]
          | some c2 => simpa [apply_request, resolvesPath, terminalPrecond, hl] using ih c2

/-- Modelled from the spec: a filtering hop on a packet's route — the ACL
engine consulted at a router or firewall interface together with that
interface's malicious/drop counter. -/
structure FilterHop where
  acl : AccessControlList
  drop_count : Nat
deriving DecidableEq, Repr

/-- A hop on a packet's source-to-destination route: a non-filtering device
(such as a switch) or a filtering router/firewall interface. -/
inductive Hop where
  | plain
  | filter (f : FilterHop)
deriving DecidableEq, Repr

/-- Whether a hop's ACL denies the packet (a plain hop never filters). -/
def hopDeny : Hop → Packet → Bool
  | .plain, _ => false
  | .filter f, p => evaluate f.acl p == .deny

/-- Modelled from the spec: hop-by-hop traversal of a packet's route.  At
every router/firewall hop the relevant ACL engine's evaluate is invoked; on
DENY the packet is dropped, the denying interface's malicious/drop counter
increments by one, and the packet goes no further; if every hop permits,
the packet is handed to the destination software's receive entry point
(modelled by appending it to the destination's received list). -/
def transmit : List Hop → Packet → List Packet → (List Hop × List Packet)
  | [], p, received => ([], received ++ [p])
  | .plain :: rest, p, received =>
      let r := transmit rest p received
      (.plain :: r.1, r.2)
  | .filter f :: rest, p, received =>
      if evaluate f.acl p = .deny then
        (.filter { f with drop_count := f.drop_count + 1 } :: rest, received)
      else
        let r := transmit rest p received
        (.filter f :: r.1, r.2)

/-- C4 (amended): a packet whose route crosses a router or firewall whose
ACL evaluates the packet's 5-tuple to DENY (its first matching rule is a
DENY rule), the earlier hops not denying it, is never handed to the
destination software's receive entry point, and the denying interface's
malicious/drop counter increments by exactly one while every other hop is
left unchanged. -/
theorem C4_first_denying_hop_blocks (pre post : List Hop) (f : FilterHop)
    (pkt : Packet) (received : List Packet)
    (hpre : ∀ g ∈ pre, hopDeny g pkt = false)
    (hdeny : evaluate f.acl pkt = .deny) :
    (transmit (pre ++ .filter f :: post) pkt received).2 = received
    ∧ (transmit (pre ++ .filter f :: post) pkt received).1 =
        pre ++ .filter { f with drop_count := f.drop_count + 1 } :: post := by
  induction pre with
  | nil => simp [transmit, hdeny]
  | cons g pre ih =>
      have hg : hopDeny g pkt = false := hpre g (List.mem_cons_self g pre)
      have hrest : ∀ x ∈ pre, hopDeny x pkt = false :=
        fun x hx => hpre x (List.mem_cons_of_mem g hx)
      obtain ⟨h1, h2⟩ := ih hrest
      cases g with
      | plain =>
          simp only [List.cons_append, transmit, List.append_eq]
          exact ⟨h1, by rw [h2]⟩
      | filter fh =>
          have hnd : ¬ evaluate fh.acl pkt = .deny := by
            simpa [hopDeny] using hg
          simp only [List.cons_append, transmit, List.append_eq, if_neg hnd]
          exact ⟨h1, by rw [h2]⟩

/-- Concrete denying hop for the C4 witness. -/
def c4DenyRule : ACLRule := ⟨.deny, 10, 0, 20, 0, some 80, some 5432, some 6⟩

/-- Concrete packet for the C4 witness and counterexample. -/
def c4Pkt : Packet := ⟨10, 20, 80, 5432, 6⟩

/-- A match-everything PERMIT rule. -/
def permitAllRule : ACLRule := ⟨.permit, 0, mask32, 0, mask32, none, none, none⟩

/-- The C4 witness route: a switch, a permitting router, the denying
router, then a further switch before the destination. -/
def c4Route : List Hop :=
  [.plain, .filter ⟨⟨[(1, permitAllRule)], .deny, 10⟩, 4⟩]

/-- Tail of the C4 witness route. -/
def c4Post : List Hop := [.plain]

/-- The denying hop of the C4 witness route. -/
def c4DenyHop : FilterHop := ⟨⟨[(1, c4DenyRule)], .permit, 10⟩, 7⟩

/-- Witness for C4 (amended): on the concrete route the packet is dropped
at the denying router, is never appended to the destination's received
list, and exactly that router's drop counter increments from 7 to 8. -/
theorem C4_first_denying_hop_blocks_witness :
    (transmit (c4Route ++ .filter c4DenyHop :: c4Post) c4Pkt []).2 = []
    ∧ (transmit (c4Route ++ .filter c4DenyHop :: c4Post) c4Pkt []).1 =
        c4Route ++ .filter { c4DenyHop with drop_count := c4DenyHop.drop_count + 1 } :: c4Post :=
  C4_first_denying_hop_blocks c4Route c4Post c4DenyHop c4Pkt []
    (by decide) (by decide)

/-- The engine of the C4 counterexample: a match-everything PERMIT rule at
position 1 ahead of a DENY rule matching the packet at position 2. -/
def c4ShadowedAcl : AccessControlList :=
  ⟨[(1, permitAllRule), (2, c4DenyRule)], .deny, 10⟩

/-- Counterexample to C4 as stated: the route crosses a router whose ACL
holds a DENY rule matching the packet's 5-tuple, yet — the DENY rule being
shadowed by an earlier matching PERMIT rule under first-match-wins — the
packet is handed to the destination software's receive entry point. -/
theorem C4_shadowed_deny_counterexample :
    (2, c4DenyRule) ∈ c4ShadowedAcl.rules
    ∧ c4DenyRule.permission = .deny
    ∧ ruleMatches c4DenyRule c4Pkt = true
    ∧ (transmit [.filter ⟨c4ShadowedAcl, 0⟩] c4Pkt []).2 = [c4Pkt] := by
  refine ⟨by decide, by decide, by decide, by decide⟩

/-- Modelled from the spec: a protocol carried on a link together with its
current load for the running tick. -/
structure Protocol where
  name : String
  load : Nat
deriving DecidableEq, Repr

/-- Modelled from the spec: a link between two interfaces, with a bandwidth
capacity and a per-protocol current load. -/
structure Link where
  bandwidth : Nat
  protocol_list : List Protocol
deriving DecidableEq, Repr

/-- Modelled from the spec: at the start of each tick every protocol's load
on the link is reset to zero. -/
def clear_traffic (l : Link) : Link :=
  { l with protocol_list := l.protocol_list.map (fun p => { p with load := 0 }) }

/-- Modelled from the spec: a frame traversing the link during the tick
accumulates its load onto the matching protocol's counter. -/
def add_protocol_load (l : Link) (nm : String) (load : Nat) : Link :=
  { l with protocol_list :=
      (l.protocol_list.map (fun p => if p.name = nm then { p with load := p.load + load } else p)) }

/-- Modelled from the spec: per-tick congestion handling caps every
protocol's recorded load at the link's bandwidth capacity. -/
def apply_congestion (l : Link) : Link :=
  { l with protocol_list :=
      (l.protocol_list.map (fun p => { p with load := min p.load l.bandwidth })) }

/-- The recorded current load of a named protocol on the link. -/
def get_current_load (l : Link) (nm : String) : Nat :=
  ((l.protocol_list.find? (fun p => p.name == nm)).map (fun p => p.load)).getD 0

/-- The traffic of one tick: the loads of the frames sent on the link, in
submission order. -/
def accumulate_frames (l : Link) (frames : List (String × Nat)) : Link :=
  frames.foldl (fun acc f => add_protocol_load acc f.1 f.2) l

/-- Modelled from the spec: one tick of a link — loads reset at the start
of the tick, accumulate as frames traverse the link, and congestion
handling runs at the end. -/
def link_apply_timestep (l : Link) (frames : List (String × Nat)) : Link :=
  apply_congestion (accumulate_frames (clear_traffic l) frames)

/-- Total load the tick's frames place on one named protocol. -/
def sumFrames : List (String × Nat) → String → Nat
  | [], _ => 0
  | f :: fs, nm => (if f.1 = nm then f.2 else 0) + sumFrames fs nm

/-- Searching a name-preserving transform of the protocol list finds the
transformed entry of the original search. -/
theorem find_map_name {g : Protocol → Protocol} (hg : ∀ p, (g p).name = p.name)
    (ps : List Protocol) (nm : String) :
    (ps.map g).find? (fun p => p.name == nm) =
      (ps.find? (fun p => p.name == nm)).map g := by
  induction ps with
  | nil => rfl
  | cons a t ih =>
      by_cases ha : (a.name == nm) = true
      · have hga : ((g a).name == nm) = true := by rw [hg a]; exact ha
        rw [List.map_cons, List.find?_cons_of_pos t ha,
          List.find?_cons_of_pos (t.map g) hga, Option.map_some']
      · have hga : ¬ ((g a).name == nm) = true := by rw [hg a]; exact ha
        rw [List.map_cons, List.find?_cons_of_neg t ha,
          List.find?_cons_of_neg (t.map g) hga, ih]

/-- A name-preserving transform of the protocol list preserves whether a
named protocol is carried on the link. -/
theorem find_map_name_isSome {g : Protocol → Protocol} (hg : ∀ p, (g p).name = p.name)
    (ps : List Protocol) (nm : String) :
    ((ps.map g).find? (fun p => p.name == nm)).isSome =
      (ps.find? (fun p => p.name == nm)).isSome := by
  rw [find_map_name hg]
  cases ps.find? (fun p => p.name == nm) <;> rfl

/-- Adding a frame's load changes only the load recorded for the frame's
protocol, and by exactly the frame's load. -/
theorem load_after_add (l : Link) (fn : String) (fx : Nat) (nm : String)
    (hpres : ((l.protocol_list).find? (fun p => p.name == nm)).isSome = true) :
    get_current_load (add_protocol_load l fn fx) nm =
      get_current_load l nm + (if fn = nm then fx else 0) := by
  have hg : ∀ p : Protocol,
      ((fun (p : Protocol) => if p.name = fn then { p with load := p.load + fx } else p) p).name
        = p.name := by
    intro p
    by_cases h : p.name = fn <;> simp [h]
  unfold get_current_load add_protocol_load
  rw [find_map_name hg]
  cases hf : l.protocol_list.find? (fun p => p.name == nm) with
  | none => rw [hf] at hpres; cases hpres
  | some p =>
      have hp := List.find?_some hf
      have hpnm : p.name = nm := by simpa using hp
      by_cases h : fn = nm
      · simp [hpnm, h]
      · have : ¬ p.name = fn := by rw [hpnm]; exact fun hc => h hc.symm
        simp [this, h]

/-- Accumulating a tick's frames raises each carried protocol's load by
exactly the total load of the frames sent on it. -/
theorem load_after_accumulate (frames : List (String × Nat)) :
    ∀ (l : Link) (nm : String),
      ((l.protocol_list).find? (fun p => p.name == nm)).isSome = true →
      get_current_load (accumulate_frames l frames) nm =
        get_current_load l nm + sumFrames frames nm := by
  induction frames with
  | nil => intro l nm _; simp [accumulate_frames, sumFrames]
  | cons f fs ih =>
      intro l nm hpres
      have hg : ∀ p : Protocol,
          ((fun (p : Protocol) => if p.name = f.1 then { p with load := p.load + f.2 } else p) p).name
            = p.name := by
        intro p
        by_cases h : p.name = f.1 <;> simp [h]
      have hpres2 :
          (((add_protocol_load l f.1 f.2).protocol_list).find?
            (fun p => p.name == nm)).isSome = true := by
        show ((l.protocol_list.map
            (fun (p : Protocol) => if p.name = f.1 then { p with load := p.load + f.2 } else p)).find?
          (fun p => p.name == nm)).isSome = true
        rw [find_map_name_isSome hg]
        exact hpres
      have hstep : accumulate_frames l (f :: fs) =
          accumulate_frames (add_protocol_load l f.1 f.2) fs := rfl
      rw [hstep, ih (add_protocol_load l f.1 f.2) nm hpres2,
        load_after_add l f.1 f.2 nm hpres]
      simp [sumFrames]
      omega

/-- Congestion handling caps the recorded load of every protocol at the
link's bandwidth. -/
theorem load_after_congestion (l : Link) (nm : String) :
    get_current_load (apply_congestion l) nm ≤ l.bandwidth := by
  have hg : ∀ p : Protocol,
      ((fun (p : Protocol) => { p with load := min p.load l.bandwidth }) p).name = p.name := by
    intro p; rfl
  unfold get_current_load apply_congestion
  rw [find_map_name hg]
  cases l.protocol_list.find? (fun p => p.name == nm) with
  | none => exact Nat.zero_le _
  | some p => simp

/-- Resetting a link zeroes the recorded load of every protocol. -/
theorem load_after_clear (l : Link) (nm : String) :
    get_current_load (clear_traffic l) nm = 0 := by
  have hg : ∀ p : Protocol, ((fun (p : Protocol) => { p with load := 0 }) p).name = p.name := by
    intro p; rfl
  unfold get_current_load clear_traffic
  rw [find_map_name hg]
  cases l.protocol_list.find? (fun p => p.name == nm) <;> rfl

/-- Accumulating frames does not change the link's bandwidth. -/
theorem bandwidth_accumulate (frames : List (String × Nat)) :
    ∀ l : Link, (accumulate_frames l frames).bandwidth = l.bandwidth := by
  induction frames with
  | nil => intro l; rfl
  | cons f fs ih => intro l; exact ih (add_protocol_load l f.1 f.2)

/-- C6: for every link and every protocol carried on it, at the start of a
tick the protocol's recorded load is reset to zero; the load then
accumulates to exactly the total of the loads of the frames sent on that
protocol during the tick; and after the per-tick congestion handling the
recorded load is at most the link's bandwidth capacity. -/
theorem C6_link_load_reset_accumulate_capped (l : Link) (frames : List (String × Nat))
    (nm : String)
    (hcarried : ((l.protocol_list).find? (fun p => p.name == nm)).isSome = true) :
    get_current_load (clear_traffic l) nm = 0
    ∧ get_current_load (accumulate_frames (clear_traffic l) frames) nm = sumFrames frames nm
    ∧ get_current_load (link_apply_timestep l frames) nm ≤ l.bandwidth := by
  have hg0 : ∀ p : Protocol, ((fun (p : Protocol) => { p with load := 0 }) p).name = p.name := by
    intro p; rfl
  have hpres : (((clear_traffic l).protocol_list).find?
      (fun p => p.name == nm)).isSome = true := by
    show ((l.protocol_list.map (fun (p : Protocol) => { p with load := 0 })).find?
      (fun p => p.name == nm)).isSome = true
    rw [find_map_name_isSome hg0]
    exact hcarried
  refine ⟨load_after_clear l nm, ?_, ?_⟩
  · rw [load_after_accumulate frames (clear_traffic l) nm hpres, load_after_clear l nm]
    omega
  · have h := load_after_congestion (accumulate_frames (clear_traffic l) frames) nm
    rw [bandwidth_accumulate] at h
    exact h

/-- Concrete link for the C6 witness. -/
def c6Link : Link := ⟨100, [⟨"TCP", 0⟩, ⟨"ICMP", 0⟩]⟩

/-- Concrete frames for the C6 witness: 130 units of TCP and 10 of ICMP. -/
def c6Frames : List (String × Nat) := [("TCP", 60), ("ICMP", 10), ("TCP", 70)]

/-- Witness for C6: on the concrete link the TCP load resets to zero,
accumulates to 130 during the tick, and is capped at the bandwidth 100 by
congestion handling. -/
theorem C6_link_load_reset_accumulate_capped_witness :
    get_current_load (clear_traffic c6Link) "TCP" = 0
    ∧ get_current_load (accumulate_frames (clear_traffic c6Link) c6Frames) "TCP" =
        sumFrames c6Frames "TCP"
    ∧ get_current_load (link_apply_timestep c6Link c6Frames) "TCP" ≤ c6Link.bandwidth :=
  C6_link_load_reset_accumulate_capped c6Link c6Frames "TCP" (by rfl)

/-- Health state of a file (or of a node's file system). -/
inductive FileHealthState where
  | good
  | compromised
  | corrupt
  | destroyed
  | restoring
  | repairing
deriving DecidableEq, Repr

/-- Errors surfaced by file lifecycle operations. -/
inductive FileOperationError where
  | PreconditionFailed
  | InvalidStateForOperation
deriving DecidableEq, Repr

/-- Modelled from the spec: a file with its health state and the countdown
of a pending timed restore transition. -/
structure File where
  health : FileHealthState
  restore_countdown : Nat
deriving DecidableEq, Repr

/-- Modelled from the spec: `restore` recovers a COMPROMISED or DESTROYED
file from a backup copy.  It requires a configured, reachable backup source
(`none` means no backup source is configured, failing with
PreconditionFailed); on a file whose state does not support restoring it
fails with InvalidStateForOperation; otherwise the file enters the timed
RESTORING state for the configured number of ticks. -/
def restore (f : File) (backup_source : Option Nat) (restoring_limit : Nat) :
    Except FileOperationError File :=
  match backup_source with
  | none => .error .PreconditionFailed
  | some _ =>
      if f.health = .compromised ∨ f.health = .destroyed then
        .ok { f with health := .restoring, restore_countdown := restoring_limit }
      else .error .InvalidStateForOperation

/-- The file state a caller observes after invoking `restore`: the new file
on success, the unchanged file on error (atomicity on error). -/
def restoreApply (f : File) (backup_source : Option Nat) (restoring_limit : Nat) : File :=
  match restore f backup_source restoring_limit with
  | .ok f2 => f2
  | .error _ => f

/-- Modelled from the spec: one timestep tick of a file's timed transition —
the RESTORING countdown is decremented once per tick and the file
deterministically resolves to GOOD when it runs out. -/
def file_apply_timestep (f : File) : File :=
  if f.health = .restoring then
    if f.restore_countdown ≤ 1 then { f with health := .good, restore_countdown := 0 }
    else { f with restore_countdown := f.restore_countdown - 1 }
  else f

/-- While strictly fewer ticks than the restore countdown have elapsed, a
restoring file is still restoring and its countdown has decreased by
exactly the number of elapsed ticks. -/
theorem restoring_progress : ∀ (k : Nat) (f : File), f.health = .restoring →
    k < f.restore_countdown →
    (file_apply_timestep^[k] f).health = .restoring ∧
    (file_apply_timestep^[k] f).restore_countdown = f.restore_countdown - k := by
  intro k
  induction k with
  | zero =>
      intro f hr _
      exact ⟨hr, by simp⟩
  | succ k ih =>
      intro f hr hk
      rw [Function.iterate_succ_apply]
      have hgt : ¬ f.restore_countdown ≤ 1 := by omega
      have h1 : file_apply_timestep f =
          { f with restore_countdown := f.restore_countdown - 1 } := by
        simp [file_apply_timestep, hr, hgt]
      rw [h1]
      have h2 := ih { f with restore_countdown := f.restore_countdown - 1 } hr
        (by simp; omega)
      refine ⟨h2.1, ?_⟩
      rw [h2.2]
      simp
      omega

/-- A restoring file with a positive countdown reaches GOOD after exactly
that many ticks. -/
theorem restoring_completes (f : File) (hr : f.health = .restoring)
    (hpos : 0 < f.restore_countdown) :
    (file_apply_timestep^[f.restore_countdown] f).health = .good := by
  have h := restoring_progress (f.restore_countdown - 1) f hr (by omega)
  have hsucc : f.restore_countdown = (f.restore_countdown - 1) + 1 := by omega
  rw [hsucc, Function.iterate_succ_apply']
  have hle : (file_apply_timestep^[f.restore_countdown - 1] f).restore_countdown ≤ 1 := by
    rw [h.2]
    omega
  simp [file_apply_timestep, h.1, hle]

/-- C5: a COMPROMISED file with a configured, reachable backup source is
taken by `restore` through the timed RESTORING state and reaches GOOD after
exactly the configured (positive) number of ticks, staying RESTORING at
every tick strictly before; `restore` on a file with no configured backup
source fails with PreconditionFailed and leaves the file's state unchanged. -/
theorem C5_restore_backup_and_precondition (f : File) (b : Nat) (lim : Nat)
    (hc : f.health = .compromised) (hlim : 0 < lim) :
    (∃ f2, restore f (some b) lim = .ok f2 ∧ f2.health = .restoring
        ∧ (∀ k, k < lim → (file_apply_timestep^[k] f2).health = .restoring)
        ∧ (file_apply_timestep^[lim] f2).health = .good)
    ∧ restore f none lim = .error .PreconditionFailed
    ∧ restoreApply f none lim = f := by
  refine ⟨?_, rfl, rfl⟩
  have hok : f.health = .compromised ∨ f.health = .destroyed := Or.inl hc
  refine ⟨{ f with health := .restoring, restore_countdown := lim }, ?_, rfl, ?_, ?_⟩
  · simp [restore, hok]
  · intro k hk
    exact (restoring_progress k { f with health := .restoring, restore_countdown := lim }
      rfl (by simpa using hk)).1
  · have := restoring_completes { f with health := .restoring, restore_countdown := lim }
      rfl (by simpa using hlim)
    simpa using this

/-- Concrete file for the C5 witness: COMPROMISED, restore limit 2, backup
source configured at address 5. -/
def c5File : File := ⟨.compromised, 0⟩

/-- Witness for C5: restoring the concrete compromised file with a backup
source reaches GOOD after exactly 2 ticks, and with no backup source fails
with PreconditionFailed leaving the file unchanged. -/
theorem C5_restore_backup_and_precondition_witness :
    (∃ f2, restore c5File (some 5) 2 = .ok f2 ∧ f2.health = .restoring
        ∧ (∀ k, k < 2 → (file_apply_timestep^[k] f2).health = .restoring)
        ∧ (file_apply_timestep^[2] f2).health = .good)
    ∧ restore c5File none 2 = .error .PreconditionFailed
    ∧ restoreApply c5File none 2 = c5File :=
  C5_restore_backup_and_precondition c5File 5 2 (by decide) (by decide)

/-- Health/operating state of a software unit (service or application). -/
inductive SoftwareState where
  | unused
  | good
  | fixing
  | compromised
  | overwhelmed
deriving DecidableEq, Repr

/-- Modelled from the spec: the slice of an active/service node the
conditional state setters act on — the node's overall software state, its
file-system state, and its named services' states. -/
structure ActiveNode where
  software_state : SoftwareState
  file_system_state_actual : FileHealthState
  services : List (String × SoftwareState)
deriving DecidableEq, Repr

/-- Modelled from the spec (declared on ActiveNode in the class diagram):
set the node's software state unless it is COMPROMISED. -/
def set_software_state_if_not_compromised (n : ActiveNode) (s : SoftwareState) :
    ActiveNode :=
  if n.software_state = .compromised then n else { n with software_state := s }

/-- Modelled from the spec (declared on ServiceNode in the class diagram):
set the state of the named service unless that service is COMPROMISED. -/
def set_service_state_if_not_compromised (n : ActiveNode) (proto : String)
    (s : SoftwareState) : ActiveNode :=
  { n with services :=
      (n.services.map (fun e => if e.1 = proto ∧ e.2 ≠ .compromised then (e.1, s) else e)) }

/-- Modelled from the spec (declared on ActiveNode in the class diagram):
set the node's file-system state unless it is COMPROMISED. -/
def set_file_system_state_if_not_compromised (n : ActiveNode) (s : FileHealthState) :
    ActiveNode :=
  if n.file_system_state_actual = .compromised then n
  else { n with file_system_state_actual := s }

/-- C9: a COMPROMISED state is sticky under the conditional setters — on a
node whose software state is COMPROMISED, whose named service is
COMPROMISED and whose file-system state is COMPROMISED, each of
set_software_state_if_not_compromised, set_service_state_if_not_compromised
and set_file_system_state_if_not_compromised leaves the node unchanged. -/
theorem C9_compromised_state_sticky (n : ActiveNode) (s : SoftwareState)
    (fs : FileHealthState) (proto : String)
    (hsw : n.software_state = .compromised)
    (hsvc : ∀ e ∈ n.services, e.1 = proto → e.2 = SoftwareState.compromised)
    (hfs : n.file_system_state_actual = .compromised) :
    set_software_state_if_not_compromised n s = n
    ∧ set_service_state_if_not_compromised n proto s = n
    ∧ set_file_system_state_if_not_compromised n fs = n := by
  refine ⟨by simp [set_software_state_if_not_compromised, hsw], ?_,
    by simp [set_file_system_state_if_not_compromised, hfs]⟩
  have hpt : ∀ e ∈ n.services,
      (fun (e : String × SoftwareState) =>
        if e.1 = proto ∧ e.2 ≠ .compromised then (e.1, s) else e) e = id e := by
    intro e he
    obtain ⟨p1, st1⟩ := e
    by_cases h1 : p1 = proto
    · subst h1
      have h2 : st1 = SoftwareState.compromised := hsvc (p1, st1) he rfl
      simp [h2]
    · simp [h1]
  have hmap : (n.services.map (fun e => if e.1 = proto ∧ e.2 ≠ .compromised then (e.1, s) else e))
      = n.services := by
    rw [List.map_congr_left hpt, List.map_id]
  show { n with services := _ } = n
  rw [hmap]

/-- Concrete node for the C9 witness: everything COMPROMISED. -/
def c9Node : ActiveNode :=
  ⟨.compromised, .compromised, [("postgres", .compromised), ("http", .good)]⟩

/-- Witness for C9: on the concrete fully compromised node, each
conditional setter is the identity. -/
theorem C9_compromised_state_sticky_witness :
    set_software_state_if_not_compromised c9Node .good = c9Node
    ∧ set_service_state_if_not_compromised c9Node "postgres" .good = c9Node
    ∧ set_file_system_state_if_not_compromised c9Node .good = c9Node :=
  C9_compromised_state_sticky c9Node .good .good "postgres" (by decide)
    (by decide) (by decide)

/-- A nested state-description value: the JSON-like shape `describe_state`
produces.  Being an inductive tree it can hold no cyclic references; the
`liveRef` constructor stands for a live object reference, the one shape a
serialization-safe description must never contain. -/
inductive StateValue where
  | null
  | bool (b : Bool)
  | num (n : Int)
  | str (s : String)
  | arr (items : List StateValue)
  | obj (fields : List (String × StateValue))
  | liveRef (objId : Nat)

mutual

/-- A state value is serialization-safe when no live object reference
occurs anywhere inside it. -/
def serializable : StateValue → Bool
  | .null => true
  | .bool _ => true
  | .num _ => true
  | .str _ => true
  | .arr items => serializableList items
  | .obj fields => serializableFields fields
  | .liveRef _ => false

/-- Every element of the list is serialization-safe. -/
def serializableList : List StateValue → Bool
  | [] => true
  | v :: vs => serializable v && serializableList vs

/-- Every field value of the mapping is serialization-safe. -/
def serializableFields : List (String × StateValue) → Bool
  | [] => true
  | e :: es => serializable e.2 && serializableFields es

end

/-- Display name of a node operating state, as it appears in state
descriptions. -/
def NodeOperatingState.describe : NodeOperatingState → String
  | .off => "OFF"
  | .on => "ON"
  | .booting => "BOOTING"
  | .shutting_down => "SHUTTING_DOWN"
  | .resetting => "RESETTING"

/-- Display name of a software state, as it appears in state
descriptions. -/
def SoftwareState.describe : SoftwareState → String
  | .unused => "UNUSED"
  | .good => "GOOD"
  | .fixing => "FIXING"
  | .compromised => "COMPROMISED"
  | .overwhelmed => "OVERWHELMED"

/-- Modelled from the spec: the per-node state the recursive
describe-state query reports. -/
structure SimNodeState where
  hostname : String
  operating_state : NodeOperatingState
  services : List (String × SoftwareState)
deriving DecidableEq, Repr

/-- Modelled from the spec: a domain account held by the simulation's
auxiliary global state. -/
structure Account where
  username : String
  account_type : String
deriving DecidableEq, Repr

/-- Modelled from the spec: the Simulation Container's state — the network
of nodes plus the auxiliary domain state. -/
structure Simulation where
  nodes : List SimNodeState
  accounts : List Account
deriving DecidableEq, Repr

/-- The state description of one service entry. -/
def describe_service (e : String × SoftwareState) : StateValue :=
  .obj [("name", .str e.1), ("health_state", .str e.2.describe)]

/-- The state description of one node, nesting its services. -/
def describe_node (n : SimNodeState) : StateValue :=
  .obj [("hostname", .str n.hostname),
        ("operating_state", .str n.operating_state.describe),
        ("services", .arr (n.services.map describe_service))]

/-- The state description of one domain account. -/
def describe_account (a : Account) : StateValue :=
  .obj [("username", .str a.username), ("account_type", .str a.account_type)]

/-- Modelled from the spec: `describe_state` recursively collects every
component's state into a nested mapping of plain values (network → nodes →
services, domain → accounts), with no live object references. -/
def describe_state (s : Simulation) : StateValue :=
  .obj [("network", .obj [("nodes", .arr (s.nodes.map describe_node))]),
        ("domain", .obj [("accounts", .arr (s.accounts.map describe_account))])]

/-- Modelled from the spec: `describe_state` as a query on the simulation —
it computes the description and performs no mutation, handing the
simulation state back unchanged. -/
def describe_state_query (s : Simulation) : StateValue × Simulation :=
  (describe_state s, s)

/-- Mapping a per-element serialization-safe description over any list
yields a serialization-safe array body. -/
theorem serializableList_map {α : Type} (f : α → StateValue)
    (h : ∀ x, serializable (f x) = true) (xs : List α) :
    serializableList (xs.map f) = true := by
  induction xs with
  | nil => rfl
  | cons x t ih =>
      rw [List.map_cons]
      show (serializable (f x) && serializableList (t.map f)) = true
      rw [h x, ih]
      rfl

/-- C8: calling `describe_state` twice with no intervening mutation returns
equal outputs (the query itself mutates nothing), and the returned value is
a nested mapping free of live object references — being a finite inductive
tree it holds no cycles — so it is serialization-safe. -/
theorem C8_describe_state_idempotent_serializable (s : Simulation) :
    (describe_state_query s).2 = s
    ∧ (describe_state_query ((describe_state_query s).2)).1 = (describe_state_query s).1
    ∧ serializable (describe_state s) = true := by
  refine ⟨rfl, rfl, ?_⟩
  show serializableFields _ = true
  have hnode : ∀ n : SimNodeState, serializable (describe_node n) = true := by
    intro n
    show (true && (true && ((true && serializableList (n.services.map describe_service))
      && true))) = true
    rw [serializableList_map describe_service (fun e => rfl) n.services]
    rfl
  have haccs : serializableList (s.accounts.map describe_account) = true :=
    serializableList_map describe_account (fun a => rfl) s.accounts
  have hnodes : serializableList (s.nodes.map describe_node) = true :=
    serializableList_map describe_node hnode s.nodes
  show ((serializableList (s.nodes.map describe_node) && true)
      && ((serializableList (s.accounts.map describe_account) && true) && true)) = true
  rw [hnodes, haccs]
  rfl
